import Mathlib

/-!
Verification of the vumi sandbox / worker core against its specification.

The definitions below are a shallow embedding of `vumi/application/sandbox.py`
and `vumi/worker.py`.  Python dictionaries are modelled as association lists,
Twisted deferreds as explicit result cells, and byte strings as `List Char`.
Each claim about the specification is settled by a theorem further down.
-/

set_option maxRecDepth 4096

namespace Vumi


/-- Association-list lookup, modelling Python `dict.get` / `dict[...]`
(`none` models a missing key). -/
def lookupA {β : Type} : List (String × β) → String → Option β
  | [], _ => none
  | (k, v) :: rest, key => if k = key then some v else lookupA rest key

/-! ## MultiDeferred (sandbox.py lines 31-56)

`MultiDeferred` is "a callable that returns new deferreds each time and then
fires them all together".  A Twisted `Deferred` is modelled as a cell in a
`DeferredStore` holding `none` while unfired and `some v` once fired with `v`;
`get` allocates a fresh cell, `callback` fires all waiting cells. -/

/-- The pool of `Deferred` objects handed out by `MultiDeferred.get`; a
deferred is identified by its index, `none` means it has not fired yet. -/
structure DeferredStore (α : Type) where
  cells : List (Option α)
deriving Repr

/-- The state of a `MultiDeferred`: `result = none` models the `NOT_FIRED`
sentinel, `deferreds` holds the ids of deferreds waiting to be fired. -/
structure MultiDeferred (α : Type) where
  result : Option α
  deferreds : List Nat
deriving Repr

/-- `MultiDeferred.__init__`: no result, no waiting deferreds. -/
def MultiDeferred.new (α : Type) : MultiDeferred α := ⟨none, []⟩

/-- `MultiDeferred.fired`: `self._result is not self.NOT_FIRED`. -/
def MultiDeferred.fired {α : Type} (md : MultiDeferred α) : Bool :=
  md.result.isSome

/-- Fire a single deferred (`d.callback(result)`). -/
def DeferredStore.fire {α : Type} (store : DeferredStore α) (id : Nat) (v : α) :
    DeferredStore α :=
  ⟨store.cells.set id (some v)⟩

/-- `MultiDeferred.callback`: record the result, fire every waiting deferred
with it, and clear the waiting list. -/
def MultiDeferred.callback {α : Type} (md : MultiDeferred α) (v : α)
    (store : DeferredStore α) : MultiDeferred α × DeferredStore α :=
  ({ result := some v, deferreds := [] },
   md.deferreds.foldl (fun st id => st.fire id v) store)

/-- `MultiDeferred.get`: allocate a new deferred; if the result has already
fired, fire the new deferred with it immediately, otherwise park it on the
waiting list. -/
def MultiDeferred.get {α : Type} (md : MultiDeferred α) (store : DeferredStore α) :
    Nat × MultiDeferred α × DeferredStore α :=
  let id := store.cells.length
  match md.result with
  | some r => (id, md, ⟨store.cells ++ [some r]⟩)
  | none => (id, { md with deferreds := md.deferreds ++ [id] },
             ⟨store.cells ++ [none]⟩)

/-- Call `get` `n` times in a row, discarding the returned deferred ids
(they are consecutive indices into the store). -/
def MultiDeferred.getN {α : Type} :
    Nat → MultiDeferred α × DeferredStore α → MultiDeferred α × DeferredStore α
  | 0, s => s
  | n + 1, (md, st) =>
    let (_, md', st') := md.get st
    MultiDeferred.getN n (md', st')

/-- The state reached after `n₁` calls to `get()` on a fresh `MultiDeferred`. -/
def mdAfterGets (α : Type) (n₁ : Nat) : MultiDeferred α × DeferredStore α :=
  MultiDeferred.getN n₁ (MultiDeferred.new α, ⟨[]⟩)

/-- The state reached after `n₁` calls to `get()` followed by `callback(v)`. -/
def mdAfterCallback (α : Type) (n₁ : Nat) (v : α) :
    MultiDeferred α × DeferredStore α :=
  (mdAfterGets α n₁).1.callback v (mdAfterGets α n₁).2

/-- The state reached after `n₁` gets, `callback(v)`, then `n₂` further gets. -/
def mdAfterMoreGets (α : Type) (n₁ : Nat) (v : α) (n₂ : Nat) :
    MultiDeferred α × DeferredStore α :=
  MultiDeferred.getN n₂ (mdAfterCallback α n₁ v)

/-! ## BaseWorker lifecycle (worker.py lines 21-71, 162-182)

A Twisted deferred chain built with `then_call` (`d.addCallback(lambda r:
func(...))`) is modelled as a `WorkerRun`: the list of stages that have run so
far plus the current chain result.  `addCallback` runs its callback only while
the chain is in the success state; once a stage fails, the failure skips every
remaining callback and propagates to whoever waits on the chain. -/

/-- A deferred chain of lifecycle stages: which stages have executed, and the
current result travelling down the chain. -/
structure WorkerRun where
  trace : List String
  result : Except String Unit
deriving Repr

/-- `then_call(d, func)` = `d.addCallback(lambda r: func())`: if the chain is
in the success state, run the stage (recording its name) and continue with its
outcome; if the chain already failed, the callback is skipped. -/
def then_call (w : WorkerRun) (name : String) (outcome : Except String Unit) :
    WorkerRun :=
  match w.result with
  | .error _ => w
  | .ok _ => { trace := w.trace ++ [name], result := outcome }

/-- `BaseWorker.startWorker`: `maybeDeferred(self._validate_config)` followed
by `then_call` for heartbeat, middleware, connectors and worker setup.  Each
argument is the outcome the corresponding stage produces when it runs. -/
def startWorker (validateConfig setupHeartbeat setupMiddleware setupConnectors
    setupWorker : Except String Unit) : WorkerRun :=
  let d : WorkerRun := { trace := ["_validate_config"], result := validateConfig }
  let d := then_call d "setup_heartbeat" setupHeartbeat
  let d := then_call d "setup_middleware" setupMiddleware
  let d := then_call d "setup_connectors" setupConnectors
  then_call d "setup_worker" setupWorker

/-- `BaseWorker.stopWorker`: `d = succeed(None)` followed by `then_call` for
the four teardown stages. -/
def stopWorker (teardownWorker teardownConnectors teardownMiddleware
    teardownHeartbeat : Except String Unit) : WorkerRun :=
  let d : WorkerRun := { trace := [], result := .ok () }
  let d := then_call d "teardown_worker" teardownWorker
  let d := then_call d "teardown_connectors" teardownConnectors
  let d := then_call d "teardown_middleware" teardownMiddleware
  then_call d "teardown_heartbeat" teardownHeartbeat

/-! ## BaseWorker.setup_connector (worker.py lines 162-176) -/

/-- A connector as constructed by `setup_connector`
(`connector_cls(self, connector_name, prefetch_count=..., middlewares=...)`).
Only the attributes relevant to the claims are modelled. -/
structure Connector where
  cname : String
  prefetchCount : Int
deriving DecidableEq, Repr

/-- `vumi.errors.DuplicateConnectorError`, carrying the offending name. -/
inductive WorkerError where
  | duplicateConnectorError (connectorName : String)
deriving DecidableEq, Repr

/-- `BaseWorker.setup_connector`: raise `DuplicateConnectorError` if the name
is already registered (before any mutation), otherwise construct the
connector, store it in the connector map and return it.  The second component
is the worker's connector map after the call. -/
def setup_connector (connectors : List (String × Connector)) (name : String)
    (prefetchCount : Int) :
    Except WorkerError Connector × List (String × Connector) :=
  if (lookupA connectors name).isSome then
    (.error (.duplicateConnectorError name), connectors)
  else
    let connector : Connector := { cname := name, prefetchCount }
    (.ok connector, connectors ++ [(name, connector)])

/-! ## RedisResource (sandbox.py lines 346-424)

The redis key space is modelled as an association list from keys to values.
Every value this resource ever writes is either `json.dumps(value)` (from
`handle_set`) or a redis integer (from `INCRBY` on count keys and
`handle_incr` targets), so stored strings are represented directly by their
parsed JSON values: an integer string is `.jint n` (exactly the values redis
`INCRBY` accepts), and any other JSON text (`null`, booleans, quoted strings)
makes `INCRBY` fail with redis's "not an integer" error. -/

/-- A JSON value, as produced by `json.dumps` / consumed by `json.loads`. -/
inductive JsonValue where
  | null
  | jbool (b : Bool)
  | jint (n : Int)
  | jstr (s : String)
deriving DecidableEq, Repr

/-- The contents of the shared redis store. -/
abbrev RedisState := List (String × JsonValue)

/-- `redis.get` / key lookup. -/
def rGet (r : RedisState) (k : String) : Option JsonValue := lookupA r k

/-- `redis.set`: replace the value under `k` in place, or append a new
entry. -/
def rSet : RedisState → String → JsonValue → RedisState
  | [], k, v => [(k, v)]
  | (k', v') :: rest, k, v =>
    if k' = k then (k', v) :: rest else (k', v') :: rSet rest k v

/-- `redis.exists`. -/
def redisExists (r : RedisState) (k : String) : Bool := (rGet r k).isSome

/-- `redis.incr(key, amount)` (redis `INCRBY`): create an absent key at
`amount`, add to an integer value, and raise on any non-integer value.
`.error` models the raised exception. -/
def redisIncr (r : RedisState) (k : String) (amount : Int) :
    Except String (Int × RedisState) :=
  match rGet r k with
  | none => .ok (amount, rSet r k (.jint amount))
  | some (.jint n) => .ok (n + amount, rSet r k (.jint (n + amount)))
  | some _ => .error "value is not an integer or out of range"

/-- `RedisResource._count_key`: `"#".join(["count", sandbox_id])`. -/
def countKey (sandboxId : String) : String := "count#" ++ sandboxId

/-- `RedisResource._sandboxed_key`:
`"#".join(["sandboxes", sandbox_id, key])`. -/
def sandboxedKey (sandboxId key : String) : String :=
  "sandboxes#" ++ sandboxId ++ "#" ++ key

/-- The redis command payload: `command.get('key')`, `command.get('value')`
and `command.get('amount', 1)` (an absent amount defaults to 1). -/
structure RCommand where
  key : String
  value : JsonValue := .null
  amount : Option Int := none
deriving DecidableEq, Repr

/-- A reply built by `SandboxResource.reply`; only the keyword fields the
redis handlers pass are modelled (`none` = field absent / Python `None`). -/
structure RReply where
  success : Bool
  reason : Option String := none
  value : Option JsonValue := none
deriving DecidableEq, Repr

/-- `RedisResource._too_many_keys`. -/
def tooManyKeys : RReply := { success := false, reason := some "Too many keys" }

/-- `RedisResource.check_keys`: an existing key is always allowed; otherwise
increment the per-sandbox count and, if it went over `keys_per_user`, undo the
increment and refuse.  A raised redis exception propagates as `.error`. -/
def check_keys (r : RedisState) (keysPerUser : Int) (sandboxId key : String) :
    Except String (Bool × RedisState) := do
  if redisExists r key then
    return (true, r)
  let ck := countKey sandboxId
  let (n, r1) ← redisIncr r ck 1
  if n > keysPerUser then
    let (_, r2) ← redisIncr r1 ck (-1)
    return (false, r2)
  return (true, r1)

/-- `RedisResource.handle_set`. -/
def handle_set (r : RedisState) (keysPerUser : Int) (sandboxId : String)
    (cmd : RCommand) : Except String (RReply × RedisState) := do
  let key := sandboxedKey sandboxId cmd.key
  let (ok, r1) ← check_keys r keysPerUser sandboxId key
  if !ok then
    return (tooManyKeys, r1)
  let r2 := rSet r1 key cmd.value
  return ({ success := true }, r2)

/-- `RedisResource.handle_get`: `json.loads(raw)` of a stored value is the
value itself in this representation; a missing key yields `value=None`. -/
def handle_get (r : RedisState) (sandboxId : String) (cmd : RCommand) :
    Except String (RReply × RedisState) := do
  let key := sandboxedKey sandboxId cmd.key
  let rawValue := rGet r key
  return ({ success := true, value := rawValue }, r)

/-- `RedisResource.handle_incr`: quota check, then `redis.incr`; a raised
increment exception is caught and reported as a `success=False` reply. -/
def handle_incr (r : RedisState) (keysPerUser : Int) (sandboxId : String)
    (cmd : RCommand) : Except String (RReply × RedisState) := do
  let key := sandboxedKey sandboxId cmd.key
  let (ok, r1) ← check_keys r keysPerUser sandboxId key
  if !ok then
    return (tooManyKeys, r1)
  let amount := cmd.amount.getD 1
  match redisIncr r1 key amount with
  | .error e => return ({ success := false, reason := some e }, r1)
  | .ok (value, r2) =>
    return ({ success := true, value := some (.jint value) }, r2)

/-- The tracked per-sandbox key count, as an integer (an absent count key
counts as zero). -/
def countOf (r : RedisState) (sandboxId : String) : Int :=
  match rGet r (countKey sandboxId) with
  | some (.jint n) => n
  | _ => 0

/-- Well-formedness of the count key: it is absent or holds an integer (the
only states reachable through this resource, which touches it only via
`INCRBY`). -/
def countWF (r : RedisState) (sandboxId : String) : Prop :=
  rGet r (countKey sandboxId) = none ∨
  rGet r (countKey sandboxId) = some (.jint (countOf r sandboxId))

/-! ## SandboxApi.dispatch_request (sandbox.py lines 334-343, 523-577)

Command names are strings of the form `resourcename.verb` (split at the
first `.` by `str.partition`) or a bare verb.  A resource is modelled by the
set of its `handle_<verb>` methods; the dispatcher's fallback resource is a
plain `SandboxResource`, which has none. -/

/-- Split a character list at the first `'.'`, if any, into the parts before
and after it. -/
def breakDot : List Char → Option (List Char × List Char)
  | [] => none
  | c :: cs =>
    if c = '.' then some ([], cs)
    else (breakDot cs).map (fun p => (c :: p.1, p.2))

/-- Python `cmd.partition('.')`: `(before, '.', after)` at the first dot, or
`(cmd, '', '')` when the command contains no dot. -/
def strPartition (s : String) : String × String × String :=
  match breakDot s.data with
  | none => (s, "", "")
  | some (a, b) => (String.mk a, ".", String.mk b)

/-- A protocol command as seen by the dispatcher.  Of the `SandboxCommand`
fields only `cmd` and the `line`/`exception` payload attached by
`_parse_command` matter here; `cmd_id` and `reply` are carried unchanged. -/
structure SandboxCommand where
  cmd : String
  line : Option String := none
  exception : Option String := none
deriving DecidableEq, Repr

/-- A sandbox resource as seen by the dispatcher: its `handle_<verb>`
methods, keyed by verb.  A handler returns `some reply` or `none` when no
reply is warranted. -/
structure SandboxResource where
  handlers : List (String × (SandboxCommand → Option SandboxCommand))

/-- Outcome of `SandboxResource.dispatch_request`. -/
inductive HandlerOutcome where
  | replied (reply : Option SandboxCommand)
  | unknownKill

/-- `SandboxResource.dispatch_request`: run `handle_<cmd>` if the resource
has it, else `unknown_request`, which logs an error and kills the sandboxed
process. -/
def SandboxResource.dispatchRequest (res : SandboxResource)
    (command : SandboxCommand) : HandlerOutcome :=
  match lookupA res.handlers command.cmd with
  | some handler => .replied (handler command)
  | none => .unknownKill

/-- `SandboxApi.fallback_resource = SandboxResource("fallback", None, {})`:
the base class defines no `handle_*` methods. -/
def fallbackResource : SandboxResource := ⟨[]⟩

/-- Everything observable about one `SandboxApi.dispatch_request` call. -/
structure DispatchResult where
  resourceName : String
  usedFallback : Bool
  innerCmd : String
  reply : Option SandboxCommand
  killed : Bool
  errorLogged : Bool

/-- `SandboxApi.dispatch_request`: split the command name at the first dot
(a bare name becomes resource `''` with the whole name as verb), rewrite
`command['cmd']` to the verb, look the resource up (defaulting to the
fallback resource), dispatch, and, if a reply came back, restore the original
compound name before sending it. -/
def SandboxApi.dispatchRequest (resources : List (String × SandboxResource))
    (command : SandboxCommand) : DispatchResult :=
  let (rn, sep, rest0) := strPartition command.cmd
  let (resourceName, rest) := if sep = "" then ("", rn) else (rn, rest0)
  let command := { command with cmd := rest }
  let lookup := lookupA resources resourceName
  let resource := lookup.getD fallbackResource
  let outcome := resource.dispatchRequest command
  { resourceName := resourceName
    usedFallback := lookup.isNone
    innerCmd := rest
    reply := match outcome with
      | .replied (some rep) =>
          some { rep with cmd := resourceName ++ sep ++ rest }
      | _ => none
    killed := match outcome with
      | .unknownKill => true
      | _ => false
    errorLogged := match outcome with
      | .unknownKill => true
      | _ => false }

/-- `SandboxProtocol._parse_command`: parse the line as a `SandboxCommand`;
on any parse failure return a synthetic `unknown` command carrying the raw
line and the exception instead of raising. -/
def parseCommand (fromJson : String → Except String SandboxCommand)
    (line : String) : SandboxCommand :=
  match fromJson line with
  | .ok c => c
  | .error e => { cmd := "unknown", line := some line, exception := some e }

/-- A concrete resource with a `handle_foo` method whose reply echoes the
(stripped) command name it saw. -/
def wRes : SandboxResource := ⟨[("foo", fun c => some { cmd := c.cmd })]⟩

/-- A concrete resource registry with two resources, `a` and `b`. -/
def wResources : List (String × SandboxResource) := [("a", wRes), ("b", wRes)]

/-- A parse function that always fails, standing in for
`SandboxCommand.from_json` raising on malformed input. -/
def wFromJson : String → Except String SandboxCommand :=
  fun _ => .error "ValueError"

/-! ## SandboxProtocol.processEnded (sandbox.py lines 256-273) -/

/-- The value the `started` MultiDeferred fires with: the protocol itself on
`connectionMade`, or a `Failure(SandboxError(...))` from `processEnded`. -/
inductive StartedValue where
  | proto
  | failure (msg : String)
deriving DecidableEq, Repr

/-- What `done` fires with: `reason.value.status` for a clean `ProcessDone`
exit, or the termination reason otherwise. -/
inductive EndResult where
  | status (n : Int)
  | reason (err : String)
deriving DecidableEq, Repr

/-- The `reason` argument of `processEnded`: Twisted delivers `ProcessDone`
(carrying the exit status) for a clean exit, and some other failure for a
signal or error termination. -/
inductive ExitReason where
  | processDone (status : Int)
  | processTerminated (err : String)
deriving DecidableEq, Repr

/-- The fields of `SandboxProtocol` that `processEnded` touches: the timeout
timer, the `started` and `done` MultiDeferreds with their deferred pools, and
`_pending_requests` (`none` = a dispatch deferred that has not settled,
`some r` = settled; `.error` is a dispatch failure). -/
structure ProcEndState where
  timeoutActive : Bool
  started : MultiDeferred StartedValue
  startedStore : DeferredStore StartedValue
  done : MultiDeferred EndResult
  doneStore : DeferredStore EndResult
  pendingRequests : List (Option (Except String Unit))

/-- `SandboxProtocol._process_request_results`: log every failed result of
the `DeferredList`, in order. -/
def processRequestResults (results : List (Except String Unit)) :
    List String :=
  results.filterMap fun r =>
    match r with
    | .error e => some e
    | .ok _ => none

/-- `SandboxProtocol.processEnded`: cancel the timeout if active, compute the
exit result, fire `started` with a failure if it never fired, and hand the
result to `DeferredList(self._pending_requests)`, which fires only once every
pending dispatch deferred has settled; its callbacks log the failures and
then fire `done` with the exit result.  The second component is what got
logged. -/
def processEnded (st : ProcEndState) (reason : ExitReason) :
    ProcEndState × List String :=
  let st := if st.timeoutActive then { st with timeoutActive := false }
            else st
  let result : EndResult :=
    match reason with
    | .processDone status => .status status
    | .processTerminated err => .reason err
  let st :=
    if st.started.fired then st
    else
      match st.started.callback (.failure "Process failed to start.")
          st.startedStore with
      | (md, store) => { st with started := md, startedStore := store }
  if st.pendingRequests.all Option.isSome then
    let results := st.pendingRequests.filterMap id
    let logged := processRequestResults results
    match st.done.callback result st.doneStore with
    | (md, store) => ({ st with done := md, doneStore := store }, logged)
  else
    (st, [])

/-- A concrete protocol state at process exit: timeout still pending, started
never fired, one successful and one failed dispatch, all settled. -/
def wProcState : ProcEndState :=
  { timeoutActive := true
    started := MultiDeferred.new StartedValue
    startedStore := ⟨[]⟩
    done := MultiDeferred.new EndResult
    doneStore := ⟨[]⟩
    pendingRequests := [some (.ok ()), some (.error "boom")] }

/-! ## SandboxProtocol receive path (sandbox.py lines 164-254)

Byte strings are modelled as `List Char`.  `SPRecvState` holds the fields of
`SandboxProtocol` that the stdout/stderr receive path touches; `kill()` is
recorded in the `killed` flag. -/

/-- Python `data.split("\n")` on character lists: the result is always
non-empty and the separators are consumed. -/
def splitNl : List Char → List (List Char)
  | [] => [[]]
  | c :: cs =>
    match splitNl cs with
    | [] => [[]]
    | l :: ls => if c = '\n' then [] :: l :: ls else (c :: l) :: ls

/-- Receive-path fields of `SandboxProtocol`. -/
structure SPRecvState where
  recvLimit : Nat
  recvBytes : Nat
  chunk : List Char
  errorChunk : List Char
  killed : Bool
deriving Repr

/-- `SandboxProtocol.__init__`, restricted to the receive-path fields. -/
def SPRecvState.init (recvLimit : Nat) : SPRecvState :=
  { recvLimit, recvBytes := 0, chunk := [], errorChunk := [],
    killed := false }

/-- `SandboxProtocol.check_recv`: account the received bytes, then either
allow the data (within the limit) or `kill()` the process and refuse. -/
def SPRecvState.check_recv (sp : SPRecvState) (nbytes : Nat) :
    SPRecvState × Bool :=
  let sp := { sp with recvBytes := sp.recvBytes + nbytes }
  if sp.recvBytes ≤ sp.recvLimit then (sp, true)
  else ({ sp with killed := true }, false)

/-- `SandboxProtocol._process_data`: skip the data if it is too big,
otherwise split it into lines with the buffered chunk glued onto the first
piece. -/
def SPRecvState.processData (sp : SPRecvState) (chunk data : List Char) :
    SPRecvState × List (List Char) :=
  match sp.check_recv data.length with
  | (sp, false) => (sp, [chunk])
  | (sp, true) =>
    match splitNl data with
    | [] => (sp, [chunk])
    | l :: ls => (sp, (chunk ++ l) :: ls)

/-- `SandboxProtocol.outReceived`: every complete line is dispatched as a
command (second component); the trailing piece becomes the new chunk. -/
def SPRecvState.outReceived (sp : SPRecvState) (data : List Char) :
    SPRecvState × List (List Char) :=
  match sp.processData sp.chunk data with
  | (sp, lines) => ({ sp with chunk := lines.getLastD [] }, lines.dropLast)

/-- `SandboxProtocol.errReceived`: every complete line is logged as a
sandbox error (second component); the trailing piece becomes the new error
chunk. -/
def SPRecvState.errReceived (sp : SPRecvState) (data : List Char) :
    SPRecvState × List (List Char) :=
  match sp.processData sp.errorChunk data with
  | (sp, lines) =>
    ({ sp with errorChunk := lines.getLastD [] }, lines.dropLast)

/-- One data delivery from the subprocess on either stream. -/
inductive IOEvent where
  | out (data : List Char)
  | err (data : List Char)
deriving DecidableEq, Repr

/-- The number of bytes the delivery carries. -/
def IOEvent.size : IOEvent → Nat
  | .out d => d.length
  | .err d => d.length

/-- Observable outputs of one delivery: the stdout lines dispatched as
commands, the stderr lines logged, and whether the process has been killed
once the delivery was handled. -/
structure StepResult where
  dispatched : List (List Char)
  logged : List (List Char)
  killedAfter : Bool
deriving DecidableEq, Repr

/-- Handle a single delivery. -/
def SPRecvState.step (sp : SPRecvState) (ev : IOEvent) :
    SPRecvState × StepResult :=
  match ev with
  | .out d =>
    match sp.outReceived d with
    | (sp, lines) => (sp, ⟨lines, [], sp.killed⟩)
  | .err d =>
    match sp.errReceived d with
    | (sp, lines) => (sp, ⟨[], lines, sp.killed⟩)

/-- Handle a sequence of deliveries, collecting the per-delivery outputs. -/
def SPRecvState.run (sp : SPRecvState) :
    List IOEvent → SPRecvState × List StepResult
  | [] => (sp, [])
  | ev :: evs =>
    (((sp.step ev).1.run evs).1,
     (sp.step ev).2 :: ((sp.step ev).1.run evs).2)

/-- The claim-side description of normal line buffering: glue the buffered
chunk onto the incoming data and split at newlines; all pieces but the last
are the complete lines. -/
def normalLines (chunk data : List Char) : List (List Char) :=
  (splitNl (chunk ++ data)).dropLast

/-- Receive-path invariant after `S` bytes have been delivered: the counter
equals `S`, the process is killed exactly when `S` exceeds the limit `R`, and
the buffered chunks contain no newline. -/
def SPInv (sp : SPRecvState) (R S : Nat) : Prop :=
  sp.recvLimit = R ∧ sp.recvBytes = S ∧ (sp.killed = true ↔ R < S) ∧
  '\n' ∉ sp.chunk ∧ '\n' ∉ sp.errorChunk

/-- A concrete delivery trace: a complete stdout line within the limit, then
a stderr delivery that crosses the limit. -/
def wEvents : List IOEvent := [.out ['h', 'i', '\n'], .err ['b', 'm']]



/-! ## Claim theorems and supporting lemmas -/

theorem getN_unfired {α : Type} (n : Nat) (md : MultiDeferred α)
    (st : DeferredStore α) (h : md.result = none) :
    MultiDeferred.getN n (md, st) =
      ({ result := none,
         deferreds := md.deferreds ++ (List.range n).map (st.cells.length + ·) },
       ⟨st.cells ++ List.replicate n none⟩) := by
  induction n generalizing md st with
  | zero =>
    obtain ⟨r, ds⟩ := md
    obtain ⟨cs⟩ := st
    simp only [MultiDeferred.mk.injEq] at h ⊢
    subst h
    simp [MultiDeferred.getN]
  | succ n ih =>
    obtain ⟨r, ds⟩ := md
    obtain ⟨cs⟩ := st
    simp only [MultiDeferred.mk.injEq] at h
    subst h
    rw [MultiDeferred.getN]
    simp only [MultiDeferred.get]
    rw [ih _ _ rfl]
    have h1 : (ds ++ [cs.length]) ++
          (List.range n).map ((cs ++ [none]).length + ·)
        = ds ++ (List.range (n + 1)).map (cs.length + ·) := by
      rw [List.range_succ_eq_map, List.map_cons, List.map_map,
        List.append_assoc]
      refine congrArg (ds ++ ·) (congrArg₂ List.cons (by simp) ?_)
      refine List.map_congr_left fun i _ => ?_
      simp [Function.comp]
      omega
    have h2 : (cs ++ [(none : Option α)]) ++ List.replicate n none
        = cs ++ List.replicate (n + 1) none := by
      simp [List.replicate_succ, List.append_assoc]
    rw [h1, h2]

theorem getN_fired {α : Type} (n : Nat) (md : MultiDeferred α)
    (st : DeferredStore α) (r : α) (h : md.result = some r) :
    MultiDeferred.getN n (md, st) =
      (md, ⟨st.cells ++ List.replicate n (some r)⟩) := by
  induction n generalizing st with
  | zero => simp [MultiDeferred.getN]
  | succ n ih =>
    rw [MultiDeferred.getN]
    simp only [MultiDeferred.get, h]
    rw [ih]
    simp [List.replicate_succ]

theorem foldl_fire_length {α : Type} (ids : List Nat) (st : DeferredStore α)
    (v : α) :
    (ids.foldl (fun s id => s.fire id v) st).cells.length =
      st.cells.length := by
  induction ids generalizing st with
  | nil => rfl
  | cons id ids ih =>
    rw [List.foldl_cons, ih]
    simp [DeferredStore.fire]

theorem foldl_fire_getElem {α : Type} (ids : List Nat) (st : DeferredStore α)
    (v : α) (i : Nat) :
    (ids.foldl (fun s id => s.fire id v) st).cells[i]? =
      if i ∈ ids ∧ i < st.cells.length then some (some v)
      else st.cells[i]? := by
  induction ids generalizing st with
  | nil => simp
  | cons id ids ih =>
    rw [List.foldl_cons, ih]
    simp only [DeferredStore.fire, List.length_set, List.mem_cons]
    by_cases hmem : i ∈ ids
    · by_cases hlt : i < st.cells.length
      · simp [hmem, hlt]
      · simp only [hmem, or_true, true_and, hlt, and_false, if_false]
        rw [List.getElem?_eq_none (l := st.cells.set id (some v))
            (by simpa using Nat.le_of_not_lt hlt),
          List.getElem?_eq_none (Nat.le_of_not_lt hlt)]
    · simp only [hmem, or_false, and_false, if_false]
      by_cases heq : i = id
      · subst heq
        by_cases hlt : i < st.cells.length
        · simp [hlt, List.getElem?_set_self hlt]
        · simp only [hlt, and_false, if_false]
          rw [List.set_eq_of_length_le (Nat.le_of_not_lt hlt)]
      · rw [List.getElem?_set_ne (by omega)]
        simp [heq]

theorem mdAfterGets_eq {α : Type} (n₁ : Nat) :
    mdAfterGets α n₁ = (⟨none, List.range n₁⟩, ⟨List.replicate n₁ none⟩) := by
  unfold mdAfterGets MultiDeferred.new
  rw [getN_unfired _ _ _ rfl]
  simp

theorem mdAfterCallback_eq {α : Type} (n₁ : Nat) (v : α) :
    mdAfterCallback α n₁ v =
      (⟨some v, []⟩,
       (List.range n₁).foldl (fun st id => st.fire id v)
         ⟨List.replicate n₁ none⟩) := by
  unfold mdAfterCallback
  rw [mdAfterGets_eq]
  rfl

theorem mdAfterCallback_cells {α : Type} (n₁ : Nat) (v : α) (i : Nat)
    (h : i < n₁) :
    (mdAfterCallback α n₁ v).2.cells[i]? = some (some v) := by
  rw [mdAfterCallback_eq]
  rw [foldl_fire_getElem]
  simp [h]

/-- **C3.** Every deferred obtained from `get()` before `callback(v)` is
unfired until `callback(v)` runs and is fired exactly once with value `v` at
that moment; every `get()` after `callback(v)` returns a deferred already
fired with the same `v`; and `fired()` is false before the callback and true
after it. -/
theorem multiDeferred_broadcast (α : Type) (n₁ n₂ : Nat) (v : α) :
    (mdAfterGets α n₁).1.fired = false ∧
    (∀ i, i < n₁ → (mdAfterGets α n₁).2.cells[i]? = some none) ∧
    (mdAfterCallback α n₁ v).1.fired = true ∧
    (∀ i, i < n₁ → (mdAfterCallback α n₁ v).2.cells[i]? = some (some v)) ∧
    (∀ i, i < n₁ + n₂ →
      (mdAfterMoreGets α n₁ v n₂).2.cells[i]? = some (some v)) ∧
    (mdAfterMoreGets α n₁ v n₂).1.fired = true := by
  have hlen : (mdAfterCallback α n₁ v).2.cells.length = n₁ := by
    rw [mdAfterCallback_eq]
    rw [foldl_fire_length]
    simp
  refine ⟨?_, ?_, ?_, fun i h => mdAfterCallback_cells n₁ v i h, ?_, ?_⟩
  · rw [mdAfterGets_eq]; rfl
  · intro i h
    rw [mdAfterGets_eq]
    simp [h]
  · rw [mdAfterCallback_eq]; rfl
  · intro i h
    unfold mdAfterMoreGets
    rw [getN_fired _ _ _ v (by rw [mdAfterCallback_eq])]
    by_cases hi : i < n₁
    · rw [List.getElem?_append_left (by rw [hlen]; exact hi)]
      exact mdAfterCallback_cells n₁ v i hi
    · rw [List.getElem?_append_right (by rw [hlen]; omega)]
      rw [hlen, List.getElem?_replicate]
      rw [if_pos (show i - n₁ < n₂ by omega)]
  · unfold mdAfterMoreGets
    rw [getN_fired _ _ _ v (by rw [mdAfterCallback_eq])]
    rw [mdAfterCallback_eq]
    rfl

/-- Witness for C3: a concrete run with two early subscribers, value `42`,
and one late subscriber. -/
theorem multiDeferred_broadcast_witness :
    (mdAfterGets Nat 2).1.fired = false ∧
    (mdAfterGets Nat 2).2.cells[0]? = some none ∧
    (mdAfterCallback Nat 2 42).2.cells[0]? = some (some 42) ∧
    (mdAfterMoreGets Nat 2 42 1).2.cells[2]? = some (some 42) := by
  obtain ⟨h1, h2, _h3, h4, h5, _h6⟩ := multiDeferred_broadcast Nat 2 1 42
  exact ⟨h1, h2 0 (by decide), h4 0 (by decide), h5 2 (by decide)⟩

/-- **C8 counterexample.** The claim says teardown stages are best-effort (a
stage's failure does not prevent later teardown stages from running), but when
`teardown_worker` fails, `then_call` chains the remaining stages with
`addCallback`, so none of them run: the trace stops at `teardown_worker` and
the failure propagates. -/
theorem stopWorker_not_best_effort :
    (stopWorker (.error "boom") (.ok ()) (.ok ()) (.ok ())).trace
        = ["teardown_worker"] ∧
    "teardown_connectors" ∉
        (stopWorker (.error "boom") (.ok ()) (.ok ()) (.ok ())).trace ∧
    (stopWorker (.error "boom") (.ok ()) (.ok ()) (.ok ())).result
        = .error "boom" := by
  refine ⟨rfl, ?_, rfl⟩
  rw [show (stopWorker (.error "boom") (.ok ()) (.ok ()) (.ok ())).trace
      = ["teardown_worker"] from rfl]
  decide

/-- **C8 (amended).** `startWorker` runs config validation, setup_heartbeat,
setup_middleware, setup_connectors and setup_worker strictly in that order,
and a failure in any stage prevents every later stage from running and
propagates to the caller; `stopWorker` runs teardown_worker,
teardown_connectors, teardown_middleware and teardown_heartbeat in that
order, but each teardown stage is chained with `addCallback` as well, so a
stage's failure likewise prevents every later teardown stage from running and
propagates (teardown is not best-effort). -/
theorem worker_lifecycle_order (v hb mw cn wk td tc tm th :
    Except String Unit) :
    ((v = .ok () → hb = .ok () → mw = .ok () → cn = .ok () →
      startWorker v hb mw cn wk =
        ⟨["_validate_config", "setup_heartbeat", "setup_middleware",
          "setup_connectors", "setup_worker"], wk⟩) ∧
     (∀ e, v = .error e →
       startWorker v hb mw cn wk = ⟨["_validate_config"], .error e⟩) ∧
     (∀ e, v = .ok () → hb = .error e →
       startWorker v hb mw cn wk =
         ⟨["_validate_config", "setup_heartbeat"], .error e⟩) ∧
     (∀ e, v = .ok () → hb = .ok () → mw = .error e →
       startWorker v hb mw cn wk =
         ⟨["_validate_config", "setup_heartbeat", "setup_middleware"],
          .error e⟩) ∧
     (∀ e, v = .ok () → hb = .ok () → mw = .ok () → cn = .error e →
       startWorker v hb mw cn wk =
         ⟨["_validate_config", "setup_heartbeat", "setup_middleware",
           "setup_connectors"], .error e⟩)) ∧
    ((td = .ok () → tc = .ok () → tm = .ok () →
      stopWorker td tc tm th =
        ⟨["teardown_worker", "teardown_connectors", "teardown_middleware",
          "teardown_heartbeat"], th⟩) ∧
     (∀ e, td = .error e →
       stopWorker td tc tm th = ⟨["teardown_worker"], .error e⟩) ∧
     (∀ e, td = .ok () → tc = .error e →
       stopWorker td tc tm th =
         ⟨["teardown_worker", "teardown_connectors"], .error e⟩) ∧
     (∀ e, td = .ok () → tc = .ok () → tm = .error e →
       stopWorker td tc tm th =
         ⟨["teardown_worker", "teardown_connectors", "teardown_middleware"],
          .error e⟩)) := by
  constructor
  · refine ⟨?_, ?_, ?_, ?_, ?_⟩
    · intro h1 h2 h3 h4
      subst h1; subst h2; subst h3; subst h4
      rfl
    · intro e h1
      subst h1
      rfl
    · intro e h1 h2
      subst h1; subst h2
      rfl
    · intro e h1 h2 h3
      subst h1; subst h2; subst h3
      rfl
    · intro e h1 h2 h3 h4
      subst h1; subst h2; subst h3; subst h4
      rfl
  · refine ⟨?_, ?_, ?_, ?_⟩
    · intro h1 h2 h3
      subst h1; subst h2; subst h3
      rfl
    · intro e h1
      subst h1
      rfl
    · intro e h1 h2
      subst h1; subst h2
      rfl
    · intro e h1 h2 h3
      subst h1; subst h2; subst h3
      rfl

/-- Witness for C8 (amended): one all-success start and one failing teardown
at a concrete input. -/
theorem worker_lifecycle_order_witness :
    startWorker (.ok ()) (.ok ()) (.ok ()) (.ok ()) (.ok ()) =
      ⟨["_validate_config", "setup_heartbeat", "setup_middleware",
        "setup_connectors", "setup_worker"], .ok ()⟩ ∧
    stopWorker (.error "boom") (.ok ()) (.ok ()) (.ok ()) =
      ⟨["teardown_worker"], .error "boom"⟩ := by
  have h := worker_lifecycle_order (.ok ()) (.ok ()) (.ok ()) (.ok ())
    (.ok ()) (.error "boom") (.ok ()) (.ok ()) (.ok ())
  exact ⟨h.1.1 rfl rfl rfl rfl, h.2.2.1 "boom" rfl⟩

/-- **C9.** Calling `setup_connector` with an already-registered name raises
`DuplicateConnectorError` and leaves the connector map unchanged: the
previously registered connector is still present under that name. -/
theorem setup_connector_duplicate (connectors : List (String × Connector))
    (name : String) (prefetchCount : Int) (c₀ : Connector)
    (h : lookupA connectors name = some c₀) :
    (setup_connector connectors name prefetchCount).1 =
        .error (.duplicateConnectorError name) ∧
    (setup_connector connectors name prefetchCount).2 = connectors ∧
    lookupA (setup_connector connectors name prefetchCount).2 name
        = some c₀ := by
  unfold setup_connector
  rw [h]
  exact ⟨rfl, rfl, h⟩

/-- Witness for C9 at a concrete connector map. -/
theorem setup_connector_duplicate_witness :
    lookupA [("ri", Connector.mk "ri" 20)] "ri" = some (Connector.mk "ri" 20) ∧
    (setup_connector [("ri", Connector.mk "ri" 20)] "ri" 20).1 =
        .error (.duplicateConnectorError "ri") ∧
    (setup_connector [("ri", Connector.mk "ri" 20)] "ri" 20).2 =
        [("ri", Connector.mk "ri" 20)] := by
  have h := setup_connector_duplicate [("ri", Connector.mk "ri" 20)] "ri" 20
    (Connector.mk "ri" 20) (by decide)
  exact ⟨by decide, h.1, h.2.1⟩

theorem rGet_rSet_self (r : RedisState) (k : String) (v : JsonValue) :
    rGet (rSet r k v) k = some v := by
  induction r with
  | nil => simp [rGet, rSet, lookupA]
  | cons p rest ih =>
    obtain ⟨k', v'⟩ := p
    by_cases h : k' = k
    · subst h
      simp [rGet, rSet, lookupA]
    · simpa [rGet, rSet, lookupA, h] using ih

theorem rGet_rSet_ne (r : RedisState) (k k' : String) (v : JsonValue)
    (h : k ≠ k') : rGet (rSet r k v) k' = rGet r k' := by
  induction r with
  | nil => simp [rGet, rSet, lookupA, h]
  | cons p rest ih =>
    obtain ⟨k₀, v₀⟩ := p
    by_cases h0 : k₀ = k
    · subst h0
      simp [rGet, rSet, lookupA, h]
    · simp only [rGet, rSet, lookupA, if_neg h0] at ih ⊢
      rw [ih]

theorem countKey_ne_sandboxedKey (sid sid' k : String) :
    countKey sid ≠ sandboxedKey sid' k := by
  intro h
  have h2 : (countKey sid).data = (sandboxedKey sid' k).data := by rw [h]
  have h3 : (countKey sid).data = 'c' :: ("ount#" ++ sid).data := rfl
  have h4 : (sandboxedKey sid' k).data
      = 's' :: ("andboxes#" ++ sid' ++ "#" ++ k).data := rfl
  rw [h3, h4] at h2
  simp at h2

theorem countOf_rSet_countKey (r : RedisState) (sid : String) (m : Int) :
    countOf (rSet r (countKey sid) (.jint m)) sid = m := by
  unfold countOf
  rw [rGet_rSet_self]

theorem countOf_rSet_other (r : RedisState) (sid k : String) (v : JsonValue)
    (h : k ≠ countKey sid) : countOf (rSet r k v) sid = countOf r sid := by
  unfold countOf
  rw [rGet_rSet_ne _ _ _ _ h]

/-- `redisIncr` on a well-formed count key: add one to the tracked count. -/
theorem redisIncr_countKey (r : RedisState) (sid : String) (a : Int)
    (hwf : countWF r sid) :
    redisIncr r (countKey sid) a =
      .ok (countOf r sid + a,
        rSet r (countKey sid) (.jint (countOf r sid + a))) := by
  rcases hwf with h | h
  · unfold redisIncr countOf
    rw [h]
    simp [h]
  · unfold redisIncr
    rw [h]

theorem check_keys_exists (r : RedisState) (kpu : Int) (sid key : String)
    (h : (rGet r key).isSome) :
    check_keys r kpu sid key = .ok (true, r) := by
  unfold check_keys redisExists
  rw [if_pos h]
  rfl

/-- `check_keys` on a fresh key while the tracked count has reached the
quota: the count is incremented then decremented back, and the check
refuses. -/
theorem check_keys_reject (r : RedisState) (kpu : Int) (sid key : String)
    (hk : rGet r key = none) (hwf : countWF r sid)
    (hq : kpu ≤ countOf r sid) :
    ∃ r', check_keys r kpu sid key = .ok (false, r') ∧
      countOf r' sid = countOf r sid ∧
      (∀ k', k' ≠ countKey sid → rGet r' k' = rGet r k') := by
  refine ⟨rSet (rSet r (countKey sid) (.jint (countOf r sid + 1)))
    (countKey sid) (.jint (countOf r sid + 1 + -1)), ?_, ?_, ?_⟩
  · have hwf1 : countWF (rSet r (countKey sid) (.jint (countOf r sid + 1)))
        sid := by
      right
      rw [countOf_rSet_countKey, rGet_rSet_self]
    have h2 := redisIncr_countKey
      (rSet r (countKey sid) (.jint (countOf r sid + 1))) sid (-1) hwf1
    rw [countOf_rSet_countKey] at h2
    unfold check_keys redisExists
    rw [hk]
    simp only [Option.isSome_none, Bool.false_eq_true, if_false]
    rw [redisIncr_countKey r sid 1 hwf]
    simp only [bind, Except.bind]
    rw [if_pos (show countOf r sid + 1 > kpu by omega), h2]
    rfl
  · rw [countOf_rSet_countKey]
    omega
  · intro k' hk'
    rw [rGet_rSet_ne _ _ _ _ (fun h => hk' h.symm),
      rGet_rSet_ne _ _ _ _ (fun h => hk' h.symm)]

/-- `check_keys` on a fresh key while under quota: the tracked count is
incremented once and the check accepts. -/
theorem check_keys_accept (r : RedisState) (kpu : Int) (sid key : String)
    (hk : rGet r key = none) (hwf : countWF r sid)
    (hq : countOf r sid < kpu) :
    ∃ r', check_keys r kpu sid key = .ok (true, r') ∧
      countOf r' sid = countOf r sid + 1 ∧
      countWF r' sid ∧
      (∀ k', k' ≠ countKey sid → rGet r' k' = rGet r k') := by
  refine ⟨rSet r (countKey sid) (.jint (countOf r sid + 1)), ?_, ?_, ?_, ?_⟩
  · unfold check_keys redisExists
    rw [hk]
    simp only [Option.isSome_none, Bool.false_eq_true, if_false]
    rw [redisIncr_countKey r sid 1 hwf]
    simp only [bind, Except.bind]
    rw [if_neg (show ¬countOf r sid + 1 > kpu by omega)]
    rfl
  · rw [countOf_rSet_countKey]
  · right
    rw [countOf_rSet_countKey, rGet_rSet_self]
  · intro k' hk'
    rw [rGet_rSet_ne _ _ _ _ (fun h => hk' h.symm)]

/-- **C4.** If the sandboxed key does not exist and the tracked per-sandbox
key count has reached `keys_per_user`, `handle_set` replies
`{success: false, reason: "Too many keys"}`, does not create the key and
leaves the key count net unchanged; otherwise the set succeeds and a
subsequent `handle_get` of the same key returns the value just set. -/
theorem handle_set_quota_and_roundtrip (r : RedisState) (kpu : Int)
    (sid : String) (cmd : RCommand) (hwf : countWF r sid) :
    (rGet r (sandboxedKey sid cmd.key) = none → kpu ≤ countOf r sid →
      ∃ r', handle_set r kpu sid cmd = .ok (tooManyKeys, r') ∧
        rGet r' (sandboxedKey sid cmd.key) = none ∧
        countOf r' sid = countOf r sid) ∧
    ((rGet r (sandboxedKey sid cmd.key)).isSome = true ∨ countOf r sid < kpu →
      ∃ r', handle_set r kpu sid cmd = .ok ({ success := true }, r') ∧
        handle_get r' sid cmd =
          .ok ({ success := true, value := some cmd.value }, r')) := by
  constructor
  · intro hk hq
    obtain ⟨r', hck, hcount, hpres⟩ := check_keys_reject r kpu sid
      (sandboxedKey sid cmd.key) hk hwf hq
    refine ⟨r', ?_, ?_, hcount⟩
    · simp only [handle_set]
      rw [hck]
      rfl
    · rw [hpres _ (Ne.symm (countKey_ne_sandboxedKey sid sid cmd.key)), hk]
  · intro hcase
    by_cases hk : (rGet r (sandboxedKey sid cmd.key)).isSome = true
    · refine ⟨rSet r (sandboxedKey sid cmd.key) cmd.value, ?_, ?_⟩
      · simp only [handle_set]
        rw [check_keys_exists r kpu sid _ hk]
        rfl
      · simp only [handle_get]
        rw [rGet_rSet_self]
        rfl
    · have hk' : rGet r (sandboxedKey sid cmd.key) = none := by
        cases hr : rGet r (sandboxedKey sid cmd.key)
        · rfl
        · rw [hr] at hk
          simp at hk
      have hq : countOf r sid < kpu := by
        rcases hcase with h | h
        · exact absurd h hk
        · exact h
      obtain ⟨r', hck, _, _, _⟩ := check_keys_accept r kpu sid _ hk' hwf hq
      refine ⟨rSet r' (sandboxedKey sid cmd.key) cmd.value, ?_, ?_⟩
      · simp only [handle_set]
        rw [hck]
        rfl
      · simp only [handle_get]
        rw [rGet_rSet_self]
        rfl

/-- Witness for C4: a quota-reached rejection and a successful set/get
round-trip at concrete states. -/
theorem handle_set_quota_and_roundtrip_witness :
    (∃ r', handle_set
        [(countKey "s1", .jint 1), (sandboxedKey "s1" "a", .jstr "x")]
        1 "s1" { key := "b" } = .ok (tooManyKeys, r') ∧
      rGet r' (sandboxedKey "s1" "b") = none ∧
      countOf r' "s1" = countOf
        [(countKey "s1", .jint 1), (sandboxedKey "s1" "a", .jstr "x")] "s1") ∧
    (∃ r', handle_set [] 100 "s1" { key := "k", value := .jstr "hello" } =
        .ok ({ success := true }, r') ∧
      handle_get r' "s1" { key := "k", value := .jstr "hello" } =
        .ok ({ success := true, value := some (.jstr "hello") }, r')) := by
  constructor
  · exact (handle_set_quota_and_roundtrip
      [(countKey "s1", .jint 1), (sandboxedKey "s1" "a", .jstr "x")]
      1 "s1" { key := "b" } (Or.inr (by decide))).1 (by decide) (by decide)
  · exact (handle_set_quota_and_roundtrip [] 100 "s1"
      { key := "k", value := .jstr "hello" } (Or.inl rfl)).2
      (Or.inr (by decide))

/-- **C5.** `handle_incr` on a key that does not exist (under quota) creates
it at the given amount (default 1) and increments the tracked key count
exactly once; a subsequent increment of the same key does not change the
tracked count; and a non-numeric existing value makes the underlying
increment fail, which is reported as a `{success: false, reason: ...}` reply
rather than a raised error. -/
theorem handle_incr_behavior (r : RedisState) (kpu : Int) (sid : String)
    (cmd cmd₂ : RCommand) (hwf : countWF r sid) :
    (rGet r (sandboxedKey sid cmd.key) = none → countOf r sid < kpu →
      ∃ r', handle_incr r kpu sid cmd =
          .ok ({ success := true,
                 value := some (.jint (cmd.amount.getD 1)) }, r') ∧
        rGet r' (sandboxedKey sid cmd.key) =
          some (.jint (cmd.amount.getD 1)) ∧
        countOf r' sid = countOf r sid + 1 ∧
        (cmd₂.key = cmd.key →
          ∃ r'', handle_incr r' kpu sid cmd₂ =
              .ok ({ success := true,
                     value := some (.jint (cmd.amount.getD 1 +
                       cmd₂.amount.getD 1)) }, r'') ∧
            countOf r'' sid = countOf r' sid)) ∧
    (∀ v, rGet r (sandboxedKey sid cmd.key) = some v → (∀ n, v ≠ .jint n) →
      handle_incr r kpu sid cmd =
        .ok ({ success := false,
               reason := some "value is not an integer or out of range" },
             r)) := by
  constructor
  · intro hk hq
    obtain ⟨r1, hck, hcount, hwf1, hpres⟩ := check_keys_accept r kpu sid
      (sandboxedKey sid cmd.key) hk hwf hq
    have hk1 : rGet r1 (sandboxedKey sid cmd.key) = none := by
      rw [hpres _ (Ne.symm (countKey_ne_sandboxedKey sid sid cmd.key))]
      exact hk
    refine ⟨rSet r1 (sandboxedKey sid cmd.key) (.jint (cmd.amount.getD 1)),
      ?_, rGet_rSet_self _ _ _, ?_, ?_⟩
    · simp only [handle_incr]
      rw [hck]
      show (match redisIncr r1 (sandboxedKey sid cmd.key) (cmd.amount.getD 1)
          with
        | .error e =>
            pure (({ success := false, reason := some e } : RReply), r1)
        | .ok (value, r2) =>
            pure (({ success := true, value := some (.jint value) } : RReply),
              r2)) = _
      unfold redisIncr
      rw [hk1]
      rfl
    · rw [countOf_rSet_other _ _ _ _
        (Ne.symm (countKey_ne_sandboxedKey sid sid cmd.key)), hcount]
    · intro hsame
      have hkeq : sandboxedKey sid cmd₂.key = sandboxedKey sid cmd.key := by
        rw [hsame]
      set r' := rSet r1 (sandboxedKey sid cmd.key) (.jint (cmd.amount.getD 1))
        with hr'
      have hget : rGet r' (sandboxedKey sid cmd₂.key) =
          some (.jint (cmd.amount.getD 1)) := by
        rw [hkeq, hr']
        exact rGet_rSet_self _ _ _
      refine ⟨rSet r' (sandboxedKey sid cmd₂.key)
        (.jint (cmd.amount.getD 1 + cmd₂.amount.getD 1)), ?_, ?_⟩
      · simp only [handle_incr]
        rw [check_keys_exists r' kpu sid _ (by rw [hget]; rfl)]
        show (match redisIncr r' (sandboxedKey sid cmd₂.key)
            (cmd₂.amount.getD 1) with
          | .error e =>
              pure (({ success := false, reason := some e } : RReply), r')
          | .ok (value, r2) =>
              pure (({ success := true, value := some (.jint value) } :
                RReply), r2)) = _
        unfold redisIncr
        rw [hget]
        rfl
      · rw [countOf_rSet_other _ _ _ _
          (Ne.symm (countKey_ne_sandboxedKey sid sid cmd₂.key))]
  · intro v hv hnot
    simp only [handle_incr]
    rw [check_keys_exists r kpu sid _ (by rw [hv]; rfl)]
    show (match redisIncr r (sandboxedKey sid cmd.key) (cmd.amount.getD 1)
        with
      | .error e => pure (({ success := false, reason := some e } : RReply), r)
      | .ok (value, r2) =>
          pure (({ success := true, value := some (.jint value) } : RReply),
            r2)) = _
    unfold redisIncr
    rw [hv]
    cases v with
    | null => rfl
    | jbool b => rfl
    | jint n => exact absurd rfl (hnot n)
    | jstr s => rfl

/-- Witness for C5: a fresh-key increment, a follow-up increment and a
non-numeric failure at concrete states. -/
theorem handle_incr_behavior_witness :
    (∃ r', handle_incr [] 100 "s1" { key := "k" } =
        .ok ({ success := true, value := some (.jint 1) }, r') ∧
      rGet r' (sandboxedKey "s1" "k") = some (.jint 1) ∧
      countOf r' "s1" = countOf ([] : RedisState) "s1" + 1 ∧
      (∃ r'', handle_incr r' 100 "s1" { key := "k", amount := some 5 } =
          .ok ({ success := true, value := some (.jint 6) }, r'') ∧
        countOf r'' "s1" = countOf r' "s1")) ∧
    handle_incr [(sandboxedKey "s1" "k", .jstr "oops")] 100 "s1"
        { key := "k" } =
      .ok ({ success := false,
             reason := some "value is not an integer or out of range" },
           [(sandboxedKey "s1" "k", .jstr "oops")]) := by
  have h := handle_incr_behavior [] 100 "s1" { key := "k" }
    { key := "k", amount := some 5 } (Or.inl rfl)
  obtain ⟨r', h1, h2, h3, h4⟩ := h.1 rfl (by decide)
  have h' := handle_incr_behavior [(sandboxedKey "s1" "k", .jstr "oops")]
    100 "s1" { key := "k" } { key := "k" } (Or.inl (by decide))
  exact ⟨⟨r', h1, h2, h3, h4 rfl⟩,
    h'.2 (.jstr "oops") (by decide) (fun n h => by cases h)⟩

/-- **C10.** `handle_get` for a key that was never set replies
`{success: true, value: null}` (not an error reply) and returns the store
unchanged: the key is not created and the tracked key count is untouched. -/
theorem handle_get_missing_key (r : RedisState) (sid : String)
    (cmd : RCommand) (h : rGet r (sandboxedKey sid cmd.key) = none) :
    handle_get r sid cmd = .ok ({ success := true, value := none }, r) := by
  simp only [handle_get]
  rw [h]
  rfl

theorem breakDot_append (a b : List Char) (h : '.' ∉ a) :
    breakDot (a ++ '.' :: b) = some (a, b) := by
  induction a with
  | nil => simp [breakDot]
  | cons c cs ih =>
    have hc : c ≠ '.' := fun hc => h (hc ▸ List.mem_cons_self c cs)
    simp only [List.cons_append, breakDot, if_neg hc, List.append_eq]
    rw [ih (fun hm => h (List.mem_cons_of_mem c hm))]
    rfl

theorem breakDot_none (cs : List Char) (h : '.' ∉ cs) :
    breakDot cs = none := by
  induction cs with
  | nil => rfl
  | cons c cs ih =>
    have hc : c ≠ '.' := fun hc => h (hc ▸ List.mem_cons_self c cs)
    simp only [breakDot, if_neg hc]
    rw [ih (fun hm => h (List.mem_cons_of_mem c hm))]
    rfl

theorem breakDot_eq_some (cs a b : List Char)
    (h : breakDot cs = some (a, b)) : cs = a ++ '.' :: b := by
  induction cs generalizing a b with
  | nil => exact absurd h (by simp [breakDot])
  | cons c cs ih =>
    by_cases hc : c = '.'
    · subst hc
      have h0 : breakDot ('.' :: cs) = some ([], cs) := by simp [breakDot]
      rw [h0] at h
      have h2 := Option.some.inj h
      rw [Prod.mk.injEq] at h2
      rw [← h2.1, ← h2.2]
      rfl
    · simp only [breakDot, if_neg hc, Option.map_eq_some'] at h
      obtain ⟨⟨a', b'⟩, hsome, heq⟩ := h
      rw [Prod.mk.injEq] at heq
      rw [← heq.1, ← heq.2]
      rw [ih a' b' hsome]
      rfl

theorem strPartition_prefixed (name verb : String) (h : '.' ∉ name.data) :
    strPartition (name ++ "." ++ verb) = (name, ".", verb) := by
  unfold strPartition
  have hd : (name ++ "." ++ verb).data = name.data ++ '.' :: verb.data := by
    simp [String.data_append]
  rw [hd, breakDot_append _ _ h]

theorem strPartition_no_dot (s : String) (h : '.' ∉ s.data) :
    strPartition s = (s, "", "") := by
  unfold strPartition
  rw [breakDot_none _ h]

/-- Witness for C10 at a concrete store missing the requested key. -/
theorem handle_get_missing_key_witness :
    handle_get [(sandboxedKey "s1" "other", .jint 3)] "s1" { key := "k" } =
      .ok ({ success := true, value := none },
        [(sandboxedKey "s1" "other", .jint 3)]) :=
  handle_get_missing_key [(sandboxedKey "s1" "other", .jint 3)] "s1"
    { key := "k" } (by decide)

theorem strPartition_dot (s : String) (a b : List Char)
    (h : breakDot s.data = some (a, b)) :
    strPartition s = (String.mk a, ".", String.mk b) := by
  unfold strPartition
  rw [h]

theorem mk_dot_mk (s : String) (a b : List Char)
    (h : breakDot s.data = some (a, b)) :
    String.mk a ++ "." ++ String.mk b = s := by
  have hd := breakDot_eq_some s.data a b h
  apply String.ext
  simp only [String.data_append]
  rw [hd]
  simp

/-- **C6.** A command of the form `name.verb` is delivered only to the
resource registered under `name` with `cmd` rewritten to `verb`; a command
without a separator is routed to the fallback resource; an unregistered
resource name falls back to the unknown-command handling (error logged,
sandbox killed, no reply); and any reply written back carries exactly the
original compound `cmd` string the child sent. -/
theorem dispatch_request_routing (resources : List (String × SandboxResource))
    (command : SandboxCommand) (name verb : String) :
    (command.cmd = name ++ "." ++ verb → '.' ∉ name.data →
      (SandboxApi.dispatchRequest resources command).resourceName = name ∧
      (SandboxApi.dispatchRequest resources command).innerCmd = verb ∧
      (SandboxApi.dispatchRequest resources command).usedFallback
          = (lookupA resources name).isNone ∧
      (lookupA resources name = none →
        (SandboxApi.dispatchRequest resources command).killed = true ∧
        (SandboxApi.dispatchRequest resources command).errorLogged = true ∧
        (SandboxApi.dispatchRequest resources command).reply = none)) ∧
    ('.' ∉ command.cmd.data → lookupA resources "" = none →
      (SandboxApi.dispatchRequest resources command).usedFallback = true ∧
      (SandboxApi.dispatchRequest resources command).resourceName = "" ∧
      (SandboxApi.dispatchRequest resources command).innerCmd
          = command.cmd) ∧
    (∀ rep, (SandboxApi.dispatchRequest resources command).reply = some rep →
      rep.cmd = command.cmd) := by
  refine ⟨?_, ?_, ?_⟩
  · intro hcmd hdot
    have hp : strPartition command.cmd = (name, ".", verb) := by
      rw [hcmd]
      exact strPartition_prefixed name verb hdot
    refine ⟨?_, ?_, ?_, ?_⟩
    · simp [SandboxApi.dispatchRequest, hp]
    · simp [SandboxApi.dispatchRequest, hp]
    · simp [SandboxApi.dispatchRequest, hp]
    · intro hnone
      simp [SandboxApi.dispatchRequest, hp, hnone, fallbackResource,
        SandboxResource.dispatchRequest, lookupA]
  · intro hdot hempty
    have hp : strPartition command.cmd = (command.cmd, "", "") :=
      strPartition_no_dot command.cmd hdot
    refine ⟨?_, ?_, ?_⟩
    · simp [SandboxApi.dispatchRequest, hp, hempty]
    · simp [SandboxApi.dispatchRequest, hp]
    · simp [SandboxApi.dispatchRequest, hp]
  · intro rep hrep
    cases hb : breakDot command.cmd.data with
    | none =>
      have hp : strPartition command.cmd = (command.cmd, "", "") := by
        unfold strPartition
        rw [hb]
      simp only [SandboxApi.dispatchRequest, hp] at hrep
      simp only [reduceIte] at hrep
      split at hrep
      · rename_i rep0 heq
        have h2 := Option.some.inj hrep
        rw [← h2]
        simp
      · exact absurd hrep (by simp)
    | some p =>
      obtain ⟨a, b⟩ := p
      have hp : strPartition command.cmd = (String.mk a, ".", String.mk b) :=
        strPartition_dot command.cmd a b hb
      have hne : ("." : String) = "" ↔ False := by simp
      simp only [SandboxApi.dispatchRequest, hp, hne, if_false] at hrep
      split at hrep
      · rename_i rep0 heq
        have h2 := Option.some.inj hrep
        rw [← h2]
        exact mk_dot_mk command.cmd a b hb
      · exact absurd hrep (by simp)

/-- Witness for C6: a prefixed command routed to resource `a`, an
unregistered prefix, a bare command, and a reconstructed reply name. -/
theorem dispatch_request_routing_witness :
    (SandboxApi.dispatchRequest wResources { cmd := "a.foo" }).resourceName
        = "a" ∧
    (SandboxApi.dispatchRequest wResources { cmd := "a.foo" }).innerCmd
        = "foo" ∧
    (SandboxApi.dispatchRequest wResources { cmd := "a.foo" }).usedFallback
        = false ∧
    (SandboxApi.dispatchRequest wResources { cmd := "a.foo" }).reply
        = some { cmd := "a.foo" } ∧
    ({ cmd := "a.foo" } : SandboxCommand).cmd = "a.foo" ∧
    (SandboxApi.dispatchRequest wResources { cmd := "zz.x" }).killed = true ∧
    (SandboxApi.dispatchRequest wResources { cmd := "bare" }).usedFallback
        = true ∧
    (SandboxApi.dispatchRequest wResources { cmd := "bare" }).innerCmd
        = "bare" := by
  have h := dispatch_request_routing wResources { cmd := "a.foo" } "a" "foo"
  have h1 := h.1 (by decide) (by decide)
  have h2 := (dispatch_request_routing wResources { cmd := "zz.x" }
    "zz" "x").1 (by decide) (by decide)
  have h3 := (dispatch_request_routing wResources { cmd := "bare" }
    "" "").2.1 (by decide) rfl
  have hrep : (SandboxApi.dispatchRequest wResources
      { cmd := "a.foo" }).reply = some { cmd := "a.foo" } := by decide
  refine ⟨h1.1, h1.2.1, ?_, hrep, h.2.2 { cmd := "a.foo" } hrep,
    (h2.2.2.2 rfl).1, h3.1, h3.2.2⟩
  rw [h1.2.2.1]
  decide

/-- **C7.** `_parse_command` never raises: a line that fails to parse yields
a synthetic command with cmd `unknown` carrying the raw line and the parse
exception, and dispatching that synthetic command (with no resource
registered under the empty name) reaches the unknown-command handler, which
logs an error and kills the sandboxed process without sending a reply. -/
theorem parse_command_unknown_kills
    (fromJson : String → Except String SandboxCommand) (line e : String)
    (resources : List (String × SandboxResource))
    (hparse : fromJson line = .error e)
    (hempty : lookupA resources "" = none) :
    (parseCommand fromJson line).cmd = "unknown" ∧
    (parseCommand fromJson line).line = some line ∧
    (parseCommand fromJson line).exception = some e ∧
    (SandboxApi.dispatchRequest resources
      (parseCommand fromJson line)).killed = true ∧
    (SandboxApi.dispatchRequest resources
      (parseCommand fromJson line)).errorLogged = true ∧
    (SandboxApi.dispatchRequest resources
      (parseCommand fromJson line)).usedFallback = true ∧
    (SandboxApi.dispatchRequest resources
      (parseCommand fromJson line)).reply = none := by
  have hpc : parseCommand fromJson line =
      { cmd := "unknown", line := some line, exception := some e } := by
    unfold parseCommand
    rw [hparse]
  have hp : strPartition "unknown" = ("unknown", "", "") := by decide
  refine ⟨by rw [hpc], by rw [hpc], by rw [hpc], ?_, ?_, ?_, ?_⟩ <;>
    simp [hpc, SandboxApi.dispatchRequest, hp, hempty, fallbackResource,
      SandboxResource.dispatchRequest, lookupA]

/-- Witness for C7 on a concrete malformed line. -/
theorem parse_command_unknown_kills_witness :
    (parseCommand wFromJson "not json").cmd = "unknown" ∧
    (parseCommand wFromJson "not json").line = some "not json" ∧
    (parseCommand wFromJson "not json").exception = some "ValueError" ∧
    (SandboxApi.dispatchRequest wResources
      (parseCommand wFromJson "not json")).killed = true ∧
    (SandboxApi.dispatchRequest wResources
      (parseCommand wFromJson "not json")).reply = none := by
  have h := parse_command_unknown_kills wFromJson "not json" "ValueError"
    wResources rfl rfl
  exact ⟨h.1, h.2.1, h.2.2.1, h.2.2.2.1, h.2.2.2.2.2.2⟩

/-- **C2.** On process exit: the pending timeout timer is cancelled; if the
started-future has not fired it is fired with the "Process failed to start."
failure (and an already-fired started-future keeps its value); the
done-future fires exactly when every pending per-command dispatch deferred
has settled, the failures among them are logged individually and never
propagated, and done carries the exit status for a clean exit or the
termination reason otherwise. -/
theorem processEnded_behavior (st : ProcEndState) (reason : ExitReason)
    (hdone : st.done.result = none) :
    (processEnded st reason).1.timeoutActive = false ∧
    (st.started.result = none →
      (processEnded st reason).1.started.result
        = some (.failure "Process failed to start.")) ∧
    (∀ v, st.started.result = some v →
      (processEnded st reason).1.started.result = some v) ∧
    (((processEnded st reason).1.done.fired = true) ↔
      st.pendingRequests.all Option.isSome = true) ∧
    (st.pendingRequests.all Option.isSome = true →
      (∀ n, reason = .processDone n →
        (processEnded st reason).1.done.result = some (.status n)) ∧
      (∀ f, reason = .processTerminated f →
        (processEnded st reason).1.done.result = some (.reason f)) ∧
      (processEnded st reason).2
        = processRequestResults (st.pendingRequests.filterMap id)) ∧
    (st.pendingRequests.all Option.isSome = false →
      (processEnded st reason).1.done = st.done ∧
      (processEnded st reason).2 = []) := by
  obtain ⟨t, ⟨sr, sd⟩, ss, ⟨dr, dd⟩, ds, pr⟩ := st
  simp only [MultiDeferred.result] at hdone
  subst hdone
  cases t <;> rcases sr with _ | v0 <;>
    by_cases hp : pr.all Option.isSome = true <;>
      cases reason <;>
        simp [processEnded, MultiDeferred.fired, MultiDeferred.callback, hp]

/-- Witness for C2 at a concrete exit of a process that never started. -/
theorem processEnded_behavior_witness :
    (processEnded wProcState (.processDone 0)).1.timeoutActive = false ∧
    (processEnded wProcState (.processDone 0)).1.started.result
      = some (.failure "Process failed to start.") ∧
    (processEnded wProcState (.processDone 0)).1.done.result
      = some (.status 0) ∧
    (processEnded wProcState (.processDone 0)).2 = ["boom"] := by
  have h := processEnded_behavior wProcState (.processDone 0) rfl
  refine ⟨h.1, h.2.1 rfl, (h.2.2.2.2.1 (by decide)).1 0 rfl, ?_⟩
  rw [(h.2.2.2.2.1 (by decide)).2.2]
  decide

theorem splitNl_ne_nil (cs : List Char) : splitNl cs ≠ [] := by
  cases cs with
  | nil => simp [splitNl]
  | cons c cs =>
    simp only [splitNl]
    cases h : splitNl cs with
    | nil => simp
    | cons l ls =>
      by_cases hc : c = '\n' <;> simp [hc]

theorem splitNl_no_nl (cs : List Char) : ∀ l ∈ splitNl cs, '\n' ∉ l := by
  induction cs with
  | nil =>
    intro l hl
    simp [splitNl] at hl
    subst hl
    simp
  | cons c cs ih =>
    intro l hl
    cases h : splitNl cs with
    | nil => exact absurd h (splitNl_ne_nil cs)
    | cons l0 ls =>
      have heq : splitNl (c :: cs)
          = if c = '\n' then [] :: l0 :: ls else (c :: l0) :: ls := by
        simp only [splitNl, h]
      rw [heq] at hl
      by_cases hc : c = '\n'
      · rw [if_pos hc] at hl
        rcases List.mem_cons.mp hl with h1 | h1
        · subst h1
          simp
        · exact ih l (by rw [h]; exact h1)
      · rw [if_neg hc] at hl
        rcases List.mem_cons.mp hl with h1 | h1
        · subst h1
          intro hmem
          rcases List.mem_cons.mp hmem with h2 | h2
          · exact hc h2.symm
          · exact ih l0 (by rw [h]; exact List.mem_cons_self l0 ls) h2
        · exact ih l (by rw [h]; exact List.mem_cons_of_mem l0 h1)

theorem splitNl_append (chunk data : List Char) (h : '\n' ∉ chunk)
    (l : List Char) (ls : List (List Char)) (hd : splitNl data = l :: ls) :
    splitNl (chunk ++ data) = (chunk ++ l) :: ls := by
  induction chunk with
  | nil => simpa using hd
  | cons c cs ih =>
    have hc : c ≠ '\n' := fun hc => h (hc ▸ List.mem_cons_self c cs)
    have ih2 := ih (fun hm => h (List.mem_cons_of_mem c hm))
    have heq : splitNl ((c :: cs) ++ data)
        = if c = '\n' then [] :: (cs ++ l) :: ls
          else (c :: (cs ++ l)) :: ls := by
      show splitNl (c :: (cs ++ data)) = _
      simp only [splitNl, ih2]
    rw [heq, if_neg hc]
    rfl

theorem getLastD_splitNl_no_nl (cs : List Char) :
    '\n' ∉ (splitNl cs).getLastD [] := by
  cases h : splitNl cs with
  | nil => simp
  | cons l ls =>
    have hmem := List.getLastD_mem_cons (l :: ls) ([] : List Char)
    rcases List.mem_cons.mp hmem with h1 | h1
    · rw [h1]
      simp
    · exact splitNl_no_nl cs _ (by rw [h]; exact h1)

theorem outReceived_under (sp : SPRecvState) (d : List Char)
    (hle : sp.recvBytes + d.length ≤ sp.recvLimit)
    (l : List Char) (ls : List (List Char)) (hsd : splitNl d = l :: ls) :
    sp.outReceived d =
      ({ sp with recvBytes := sp.recvBytes + d.length,
                 chunk := ((sp.chunk ++ l) :: ls).getLastD [] },
       ((sp.chunk ++ l) :: ls).dropLast) := by
  simp [SPRecvState.outReceived, SPRecvState.processData,
    SPRecvState.check_recv, hle, hsd]

theorem errReceived_under (sp : SPRecvState) (d : List Char)
    (hle : sp.recvBytes + d.length ≤ sp.recvLimit)
    (l : List Char) (ls : List (List Char)) (hsd : splitNl d = l :: ls) :
    sp.errReceived d =
      ({ sp with recvBytes := sp.recvBytes + d.length,
                 errorChunk := ((sp.errorChunk ++ l) :: ls).getLastD [] },
       ((sp.errorChunk ++ l) :: ls).dropLast) := by
  simp [SPRecvState.errReceived, SPRecvState.processData,
    SPRecvState.check_recv, hle, hsd]

theorem outReceived_over (sp : SPRecvState) (d : List Char)
    (hover : ¬sp.recvBytes + d.length ≤ sp.recvLimit) :
    sp.outReceived d =
      ({ sp with recvBytes := sp.recvBytes + d.length, killed := true },
       []) := by
  simp [SPRecvState.outReceived, SPRecvState.processData,
    SPRecvState.check_recv, hover]

theorem errReceived_over (sp : SPRecvState) (d : List Char)
    (hover : ¬sp.recvBytes + d.length ≤ sp.recvLimit) :
    sp.errReceived d =
      ({ sp with recvBytes := sp.recvBytes + d.length, killed := true },
       []) := by
  simp [SPRecvState.errReceived, SPRecvState.processData,
    SPRecvState.check_recv, hover]

theorem step_all (sp : SPRecvState) (R S : Nat) (ev : IOEvent)
    (h : SPInv sp R S) :
    SPInv (sp.step ev).1 R (S + ev.size) ∧
    (S + ev.size ≤ R →
      (sp.step ev).2.killedAfter = false ∧
      (∀ d, ev = .out d →
        (sp.step ev).2.dispatched = normalLines sp.chunk d ∧
        (sp.step ev).2.logged = []) ∧
      (∀ d, ev = .err d →
        (sp.step ev).2.logged = normalLines sp.errorChunk d ∧
        (sp.step ev).2.dispatched = [])) ∧
    (R < S + ev.size →
      (sp.step ev).2.dispatched = [] ∧
      (sp.step ev).2.logged = [] ∧
      (sp.step ev).2.killedAfter = true) := by
  obtain ⟨hR, hS, hK, hc, hec⟩ := h
  cases ev with
  | out d =>
    simp only [IOEvent.size]
    by_cases hle : S + d.length ≤ R
    · have hkf : sp.killed = false := by
        cases hkb : sp.killed with
        | false => rfl
        | true => exact absurd (hK.mp hkb) (by omega)
      obtain ⟨l, ls, hsd⟩ : ∃ l ls, splitNl d = l :: ls := by
        cases hsd : splitNl d with
        | nil => exact absurd hsd (splitNl_ne_nil d)
        | cons l ls => exact ⟨l, ls, rfl⟩
      have hout := outReceived_under sp d (by rw [hS, hR]; exact hle) l ls hsd
      have hstep : sp.step (.out d) =
          ({ sp with
              recvBytes := sp.recvBytes + d.length,
              chunk := ((sp.chunk ++ l) :: ls).getLastD [] },
           ⟨((sp.chunk ++ l) :: ls).dropLast, [], sp.killed⟩) := by
        simp [SPRecvState.step, hout]
      have happ := splitNl_append sp.chunk d hc l ls hsd
      rw [hstep]
      refine ⟨⟨hR, by rw [hS], by simp [hkf]; omega, ?_, hec⟩, ?_, ?_⟩
      · show '\n' ∉ ((sp.chunk ++ l) :: ls).getLastD []
        rw [← happ]
        exact getLastD_splitNl_no_nl (sp.chunk ++ d)
      · intro _
        refine ⟨hkf, ?_, ?_⟩
        · intro d0 hd0
          obtain rfl : d = d0 := by injection hd0
          exact ⟨by rw [normalLines, happ], rfl⟩
        · intro d0 hd0
          exact absurd hd0 (by simp)
      · intro hover
        exact absurd hover (by omega)
    · have hout := outReceived_over sp d (by rw [hS, hR]; exact hle)
      have hstep : sp.step (.out d) =
          ({ sp with
              recvBytes := sp.recvBytes + d.length,
              killed := true },
           ⟨[], [], true⟩) := by
        simp [SPRecvState.step, hout]
      rw [hstep]
      refine ⟨⟨hR, by rw [hS], by simp; omega, hc, hec⟩, ?_, ?_⟩
      · intro hle2
        exact absurd hle2 hle
      · intro _
        exact ⟨rfl, rfl, rfl⟩
  | err d =>
    simp only [IOEvent.size]
    by_cases hle : S + d.length ≤ R
    · have hkf : sp.killed = false := by
        cases hkb : sp.killed with
        | false => rfl
        | true => exact absurd (hK.mp hkb) (by omega)
      obtain ⟨l, ls, hsd⟩ : ∃ l ls, splitNl d = l :: ls := by
        cases hsd : splitNl d with
        | nil => exact absurd hsd (splitNl_ne_nil d)
        | cons l ls => exact ⟨l, ls, rfl⟩
      have herr := errReceived_under sp d (by rw [hS, hR]; exact hle) l ls hsd
      have hstep : sp.step (.err d) =
          ({ sp with
              recvBytes := sp.recvBytes + d.length,
              errorChunk := ((sp.errorChunk ++ l) :: ls).getLastD [] },
           ⟨[], ((sp.errorChunk ++ l) :: ls).dropLast, sp.killed⟩) := by
        simp [SPRecvState.step, herr]
      have happ := splitNl_append sp.errorChunk d hec l ls hsd
      rw [hstep]
      refine ⟨⟨hR, by rw [hS], by simp [hkf]; omega, hc, ?_⟩, ?_, ?_⟩
      · show '\n' ∉ ((sp.errorChunk ++ l) :: ls).getLastD []
        rw [← happ]
        exact getLastD_splitNl_no_nl (sp.errorChunk ++ d)
      · intro _
        refine ⟨hkf, ?_, ?_⟩
        · intro d0 hd0
          exact absurd hd0 (by simp)
        · intro d0 hd0
          obtain rfl : d = d0 := by injection hd0
          exact ⟨by rw [normalLines, happ], rfl⟩
      · intro hover
        exact absurd hover (by omega)
    · have herr := errReceived_over sp d (by rw [hS, hR]; exact hle)
      have hstep : sp.step (.err d) =
          ({ sp with
              recvBytes := sp.recvBytes + d.length,
              killed := true },
           ⟨[], [], true⟩) := by
        simp [SPRecvState.step, herr]
      rw [hstep]
      refine ⟨⟨hR, by rw [hS], by simp; omega, hc, hec⟩, ?_, ?_⟩
      · intro hle2
        exact absurd hle2 hle
      · intro _
        exact ⟨rfl, rfl, rfl⟩

theorem step_killedAfter (sp : SPRecvState) (ev : IOEvent) :
    (sp.step ev).2.killedAfter = (sp.step ev).1.killed := by
  cases ev <;> simp only [SPRecvState.step]

theorem run_length (sp : SPRecvState) (evs : List IOEvent) :
    (sp.run evs).2.length = evs.length := by
  induction evs generalizing sp with
  | nil => rfl
  | cons ev evs ih => simp [SPRecvState.run, ih]

theorem run_getD (evs : List IOEvent) (i : Nat) (sp : SPRecvState)
    (h : i < evs.length) :
    (sp.run evs).2.getD i ⟨[], [], true⟩ =
      ((sp.run (evs.take i)).1.step (evs.getD i (.out []))).2 ∧
    (sp.run (evs.take (i + 1))).1 =
      ((sp.run (evs.take i)).1.step (evs.getD i (.out []))).1 := by
  induction evs generalizing i sp with
  | nil => exact absurd h (by simp)
  | cons ev evs ih =>
    cases i with
    | zero =>
      constructor
      · simp [SPRecvState.run]
      · simp [SPRecvState.run, List.take]
    | succ i =>
      have h2 : i < evs.length := by simpa using h
      constructor
      · simpa [SPRecvState.run] using (ih i (sp.step ev).1 h2).1
      · simpa [SPRecvState.run, List.take] using (ih i (sp.step ev).1 h2).2

theorem run_inv (evs : List IOEvent) (sp : SPRecvState) (R S : Nat)
    (h : SPInv sp R S) :
    SPInv (sp.run evs).1 R (S + (evs.map IOEvent.size).sum) := by
  induction evs generalizing sp S with
  | nil => simpa using h
  | cons ev evs ih =>
    have h1 := (step_all sp R S ev h).1
    have h2 := ih (sp.step ev).1 (S + ev.size) h1
    simp only [SPRecvState.run, List.map_cons, List.sum_cons]
    rw [← Nat.add_assoc]
    exact h2

theorem sum_take_succ (evs : List IOEvent) (i : Nat) (h : i < evs.length) :
    ((evs.take (i + 1)).map IOEvent.size).sum
      = ((evs.take i).map IOEvent.size).sum
        + (evs.getD i (.out [])).size := by
  rw [List.take_succ]
  cases hg : evs[i]? with
  | none =>
    rw [List.getElem?_eq_none_iff] at hg
    omega
  | some ev =>
    simp [List.getD_eq_getElem?_getD, hg]

theorem sum_take_le_succ (evs : List IOEvent) (j : Nat) :
    ((evs.take j).map IOEvent.size).sum
      ≤ ((evs.take (j + 1)).map IOEvent.size).sum := by
  rw [List.take_succ]
  simp

theorem sum_take_mono (evs : List IOEvent) (i j : Nat) (hij : i ≤ j) :
    ((evs.take i).map IOEvent.size).sum
      ≤ ((evs.take j).map IOEvent.size).sum := by
  induction hij with
  | refl => exact Nat.le_refl _
  | step h2 ih => exact Nat.le_trans ih (sum_take_le_succ evs _)

/-- **C1.** Running any sequence of stdout/stderr deliveries against a fresh
protocol with receive limit `R`: a delivery that keeps the cumulative byte
count within `R` is processed normally (its complete lines are dispatched as
commands or logged as stderr lines, and the process is not killed), while the
delivery whose arrival pushes the cumulative count past `R` -- and every
delivery on either stream after it -- contributes no dispatched command and
no logged stderr line, and the process is killed from that delivery on. -/
theorem recv_limit_kills_and_discards (R : Nat) (events : List IOEvent)
    (i : Nat) (hi : i < events.length) :
    (((events.take (i + 1)).map IOEvent.size).sum ≤ R →
      ((((SPRecvState.init R).run events).2.getD i ⟨[], [], true⟩).killedAfter
          = false) ∧
      (∀ d, events.getD i (.out []) = .out d →
        (((SPRecvState.init R).run events).2.getD i ⟨[], [], true⟩).dispatched
            = normalLines
                (((SPRecvState.init R).run (events.take i)).1.chunk) d ∧
        (((SPRecvState.init R).run events).2.getD i ⟨[], [], true⟩).logged
            = []) ∧
      (∀ d, events.getD i (.out []) = .err d →
        (((SPRecvState.init R).run events).2.getD i ⟨[], [], true⟩).logged
            = normalLines
                (((SPRecvState.init R).run (events.take i)).1.errorChunk) d ∧
        (((SPRecvState.init R).run events).2.getD i ⟨[], [], true⟩).dispatched
            = [])) ∧
    (R < ((events.take (i + 1)).map IOEvent.size).sum →
      (((SPRecvState.init R).run events).2.getD i ⟨[], [], true⟩).dispatched
          = [] ∧
      (((SPRecvState.init R).run events).2.getD i ⟨[], [], true⟩).logged
          = [] ∧
      (∀ j, i ≤ j → j < events.length →
        (((SPRecvState.init R).run events).2.getD j
            ⟨[], [], true⟩).killedAfter = true)) := by
  have hinit : SPInv (SPRecvState.init R) R 0 := by
    refine ⟨rfl, rfl, ?_, by simp [SPRecvState.init], by simp [SPRecvState.init]⟩
    simp [SPRecvState.init]
  have hsti := run_inv (events.take i) (SPRecvState.init R) R 0 hinit
  rw [Nat.zero_add] at hsti
  have hstep := step_all ((SPRecvState.init R).run (events.take i)).1 R
    ((events.take i).map IOEvent.size).sum (events.getD i (.out [])) hsti
  have hgd := run_getD events i (SPRecvState.init R) hi
  have hsum := sum_take_succ events i hi
  constructor
  · intro hle
    have hle2 : ((events.take i).map IOEvent.size).sum
        + (events.getD i (.out [])).size ≤ R := by
      rw [← hsum]
      exact hle
    have hu := hstep.2.1 hle2
    rw [hgd.1]
    exact ⟨hu.1, hu.2.1, hu.2.2⟩
  · intro hover
    rw [hsum] at hover
    have ho := hstep.2.2 hover
    refine ⟨by rw [hgd.1]; exact ho.1, by rw [hgd.1]; exact ho.2.1, ?_⟩
    intro j hij hj
    have hgdj := run_getD events j (SPRecvState.init R) hj
    rw [hgdj.1, step_killedAfter, ← hgdj.2]
    have hinvj := run_inv (events.take (j + 1)) (SPRecvState.init R) R 0 hinit
    rw [Nat.zero_add] at hinvj
    apply hinvj.2.2.1.mpr
    have hmono := sum_take_mono events (i + 1) (j + 1) (by omega)
    have hsum2 := sum_take_succ events i hi
    omega

/-- Witness for C1 with receive limit 3: the first delivery (3 bytes, within
the limit) dispatches its complete line and does not kill; the second (total
5 bytes, over the limit) logs nothing and kills the process. -/
theorem recv_limit_kills_and_discards_witness :
    (((SPRecvState.init 3).run wEvents).2.getD 0 ⟨[], [], true⟩).dispatched
        = [['h', 'i']] ∧
    (((SPRecvState.init 3).run wEvents).2.getD 0 ⟨[], [], true⟩).killedAfter
        = false ∧
    (((SPRecvState.init 3).run wEvents).2.getD 1 ⟨[], [], true⟩).logged
        = [] ∧
    (((SPRecvState.init 3).run wEvents).2.getD 1 ⟨[], [], true⟩).dispatched
        = [] ∧
    (((SPRecvState.init 3).run wEvents).2.getD 1 ⟨[], [], true⟩).killedAfter
        = true := by
  have h0 := (recv_limit_kills_and_discards 3 wEvents 0 (by decide)).1
    (by decide)
  have h1 := (recv_limit_kills_and_discards 3 wEvents 1 (by decide)).2
    (by decide)
  refine ⟨?_, h0.1, h1.2.1, h1.1, h1.2.2 1 (by decide) (by decide)⟩
  rw [(h0.2.1 ['h', 'i', '\n'] (by decide)).1]
  decide

end Vumi
